import Mathlib

/-!
Shallow embedding of the timemachine fixed-point accumulation core:
the fixed-point codec (fixed_point.hpp), the bonded interaction kernels
(k_periodic_torsion.cuh, k_log_flat_bottom_bond.cuh), the device buffer
(device_buffer.cu) and the Langevin integrator (langevin_integrator.cu).

Machine real arithmetic (float/double) is embedded as exact rational
arithmetic over ℚ; the transcendental device/libm functions (exp, log,
sin, cos, atan2, sqrt, ...) are parameters of the embedding, collected in
a MathOps record, since their bit-level behaviour is not part of the
sources.  Unsigned 64-bit accumulator cells are embedded as ℕ values with
explicit reduction modulo 2^64; __int128 cells as ℤ values wrapped into
the signed 128-bit range.
-/

namespace timemachine

/-- Record of the real-valued math primitives used by the kernels.  Each
field stands for the corresponding device/libm function of the source;
the embedding treats them as opaque rational-valued functions. -/
structure MathOps where
  sqrt : ℚ → ℚ
  exp : ℚ → ℚ
  expm1 : ℚ → ℚ
  log : ℚ → ℚ
  log1p : ℚ → ℚ
  sin : ℚ → ℚ
  cos : ℚ → ℚ
  atan2 : ℚ → ℚ → ℚ

/-! ## fixed_point.hpp -/

/-- FIXED_EXPONENT from fixed_point.hpp: 0x1000000000 = 2^36. -/
def FIXED_EXPONENT : ℕ := 0x1000000000

/-- LLONG_MAX, the largest signed 64-bit value. -/
def LLONG_MAX : ℤ := 2 ^ 63 - 1

/-- LLONG_MIN, the smallest signed 64-bit value. -/
def LLONG_MIN : ℤ := -(2 ^ 63)

/-- Embedding of static_cast from unsigned long long to long long:
reinterpret the 64-bit pattern as a two's-complement signed value. -/
def u64_to_ll (w : ℕ) : ℤ :=
  if w % 2 ^ 64 < 2 ^ 63 then (w % 2 ^ 64 : ℤ) else (w % 2 ^ 64 : ℤ) - 2 ^ 64

/-- Embedding of static_cast from __int128 to long long: truncate to the
low 64 bits and reinterpret as two's-complement signed. -/
def i128_to_ll (v : ℤ) : ℤ :=
  if v % 2 ^ 64 < 2 ^ 63 then v % 2 ^ 64 else v % 2 ^ 64 - 2 ^ 64

/-- Wrap an integer into the signed 128-bit range, the value set of a
__int128 cell. -/
def wrap128 (z : ℤ) : ℤ := (z + 2 ^ 127) % 2 ^ 128 - 2 ^ 127

/-- FIXED_TO_FLOAT from fixed_point.hpp: cast the unsigned 64-bit fixed
point value to long long and divide by FIXED_EXPONENT. -/
def FIXED_TO_FLOAT (v : ℕ) : ℚ := (u64_to_ll v : ℚ) / (FIXED_EXPONENT : ℚ)

/-- FIXED_TO_FLOAT_DU_DP from fixed_point.hpp: cast to long long and
divide by the parameter-kind exponent E. -/
def FIXED_TO_FLOAT_DU_DP (E : ℕ) (v : ℕ) : ℚ := (u64_to_ll v : ℚ) / (E : ℚ)

/-- FIXED_ENERGY_TO_FLOAT from fixed_point.hpp: cast the __int128 fixed
point energy to long long and divide by FIXED_EXPONENT. -/
def FIXED_ENERGY_TO_FLOAT (v : ℤ) : ℚ := (i128_to_ll v : ℚ) / (FIXED_EXPONENT : ℚ)

/-- fixed_point_overflow from fixed_point.hpp: true when the __int128
value val satisfies val >= LLONG_MAX or val <= LLONG_MIN. -/
def fixed_point_overflow (val : ℤ) : Bool :=
  decide (LLONG_MAX ≤ val) || decide (val ≤ LLONG_MIN)

/-- Specification-side notion used by claim C1: a value lies in the
representable range of the narrower (long long) signed integer. -/
def long_long_representable (v : ℤ) : Prop := LLONG_MIN ≤ v ∧ v ≤ LLONG_MAX

instance (v : ℤ) : Decidable (long_long_representable v) := by
  unfold long_long_representable; infer_instance

/-! ## Fixed-point encoding (k_fixed_point.cuh is not among the provided
sources; the encoders are modelled from the spec) -/

/-- Modelled from the spec: k_fixed_point.cuh (FLOAT_TO_FIXED_BONDED) is
not among the provided sources.  Per spec section 4.1, encode multiplies
by the channel exponent and rounds to the nearest representable integer
of the target width; the target of the bonded encoder is the unsigned
64-bit accumulator cell, so the rounded integer is wrapped modulo 2^64. -/
def FLOAT_TO_FIXED_BONDED (x : ℚ) : ℕ :=
  ((round (x * (FIXED_EXPONENT : ℚ)) : ℤ) % 2 ^ 64).toNat

/-- Modelled from the spec: k_fixed_point.cuh (FLOAT_TO_FIXED_ENERGY) is
not among the provided sources.  Per spec section 4.1, encode multiplies
by the channel exponent (the energy channel uses the same base exponent
as the spatial channel) and rounds to the nearest representable integer
of the target width, here the signed 128-bit cell. -/
def FLOAT_TO_FIXED_ENERGY (x : ℚ) : ℤ :=
  wrap128 (round (x * (FIXED_EXPONENT : ℚ)))

/-! ## Accumulation buffers

Output buffers are embedded as total functions from flat cell index to
cell contents.  A CUDA atomicAdd on an unsigned long long cell is modular
addition at one index; the kernels below record their atomicAdd calls as
explicit (index, increment) lists applied in program order. -/

/-- Embedding of atomicAdd on an unsigned long long cell: add the
increment v into cell i modulo 2^64. -/
def atomicAddU64 (b : ℕ → ℕ) (i v : ℕ) : ℕ → ℕ :=
  fun j => if j = i then (b j + v) % 2 ^ 64 else b j

/-- Apply a list of (cell, increment) atomic additions in order. -/
def applyAdds (l : List (ℕ × ℕ)) (b : ℕ → ℕ) : ℕ → ℕ :=
  l.foldl (fun c p => atomicAddU64 c p.1 p.2) b

/-- Embedding of a plain (non-atomic) store into a __int128 cell. -/
def storeI128 (b : ℕ → ℤ) (i : ℕ) (v : ℤ) : ℕ → ℤ :=
  fun j => if j = i then v else b j

/-- Apply a list of (cell, value) stores in order. -/
def applyStores (l : List (ℕ × ℤ)) (b : ℕ → ℤ) : ℕ → ℤ :=
  l.foldl (fun c p => storeI128 c p.1 p.2) b

/-- Total increment a list of atomic adds contributes to cell i. -/
def sumAt (l : List (ℕ × ℕ)) (i : ℕ) : ℕ :=
  ((l.filter (fun p => p.1 == i)).map Prod.snd).sum

lemma sumAt_nil (i : ℕ) : sumAt [] i = 0 := rfl

lemma sumAt_cons (p : ℕ × ℕ) (t : List (ℕ × ℕ)) (i : ℕ) :
    sumAt (p :: t) i = if p.1 = i then p.2 + sumAt t i else sumAt t i := by
  by_cases h : p.1 = i <;> simp [sumAt, List.filter_cons, h]

lemma sumAt_eq_zero_of_not_touched (l : List (ℕ × ℕ)) (i : ℕ)
    (h : l.any (fun p => p.1 == i) = false) : sumAt l i = 0 := by
  induction l with
  | nil => rfl
  | cons p t ih =>
    simp only [List.any_cons, Bool.or_eq_false_iff] at h
    rw [sumAt_cons]
    have hp : ¬ p.1 = i := by simpa using h.1
    simp [hp, ih h.2]

lemma bnot_true {b : Bool} (h : ¬ b = true) : b = false := by
  cases b
  · rfl
  · exact absurd rfl h

lemma applyAdds_cell (l : List (ℕ × ℕ)) (b : ℕ → ℕ) (i : ℕ) :
    applyAdds l b i =
      if l.any (fun p => p.1 == i) then (b i + sumAt l i) % 2 ^ 64 else b i := by
  induction l generalizing b with
  | nil => simp [applyAdds, sumAt]
  | cons p t ih =>
    have hstep : applyAdds (p :: t) b = applyAdds t (atomicAddU64 b p.1 p.2) := rfl
    rw [hstep, ih]
    by_cases hpi : p.1 = i
    · have hb : atomicAddU64 b p.1 p.2 i = (b i + p.2) % 2 ^ 64 := by
        simp only [atomicAddU64]
        rw [if_pos hpi.symm]
      have hany : ((p :: t).any fun q => q.1 == i) = true := by
        simp [List.any_cons, hpi]
      rw [hb, hany, sumAt_cons, if_pos hpi]
      simp only [if_true]
      by_cases ht : t.any (fun p => p.1 == i)
      · rw [if_pos ht, Nat.mod_add_mod, Nat.add_assoc]
      · rw [if_neg ht, sumAt_eq_zero_of_not_touched t i (bnot_true ht)]
        simp
    · have hb : atomicAddU64 b p.1 p.2 i = b i := by
        simp only [atomicAddU64]
        rw [if_neg (fun h => hpi h.symm)]
      have hany : ((p :: t).any fun q => q.1 == i) = (t.any fun q => q.1 == i) := by
        simp [List.any_cons, hpi]
      rw [hb, hany, sumAt_cons, if_neg hpi]

lemma applyAdds_append (l1 l2 : List (ℕ × ℕ)) (b : ℕ → ℕ) :
    applyAdds (l1 ++ l2) b = applyAdds l2 (applyAdds l1 b) := by
  simp [applyAdds, List.foldl_append]

lemma applyStores_append (l1 l2 : List (ℕ × ℤ)) (b : ℕ → ℤ) :
    applyStores (l1 ++ l2) b = applyStores l2 (applyStores l1 b) := by
  simp [applyStores, List.foldl_append]

lemma applyStores_untouched (l : List (ℕ × ℤ)) (b : ℕ → ℤ) (i : ℕ)
    (h : l.any (fun p => p.1 == i) = false) : applyStores l b i = b i := by
  induction l generalizing b with
  | nil => rfl
  | cons p t ih =>
    simp only [List.any_cons, Bool.or_eq_false_iff] at h
    have hstep : applyStores (p :: t) b = applyStores t (storeI128 b p.1 p.2) := rfl
    rw [hstep, ih _ h.2]
    have hp : ¬ p.1 = i := by simpa using h.1
    simp only [storeI128]
    rw [if_neg (fun hh => hp hh.symm)]

lemma applyStores_prior_independent (l : List (ℕ × ℤ)) (b b2 : ℕ → ℤ) (i : ℕ)
    (h : l.any (fun p => p.1 == i) = true) :
    applyStores l b i = applyStores l b2 i := by
  induction l generalizing b b2 with
  | nil => simp at h
  | cons p t ih =>
    have hstep : ∀ c : ℕ → ℤ, applyStores (p :: t) c = applyStores t (storeI128 c p.1 p.2) :=
      fun c => rfl
    rw [hstep b, hstep b2]
    by_cases ht : t.any (fun p => p.1 == i)
    · exact ih _ _ ht
    · simp only [List.any_cons, bnot_true ht, Bool.or_false] at h
      have hp : p.1 = i := by simpa using h
      rw [applyStores_untouched _ _ _ (bnot_true ht),
        applyStores_untouched _ _ _ (bnot_true ht)]
      simp only [storeI128]
      rw [if_pos hp.symm, if_pos hp.symm]

/-- Accumulating into a pre-populated cell lands prior contents plus the
zero-buffer contribution, modulo the 64-bit cell width. -/
lemma applyAdds_zero_offset (l : List (ℕ × ℕ)) (b : ℕ → ℕ) (i : ℕ) :
    applyAdds l b i % 2 ^ 64 = (b i + applyAdds l (fun _ => 0) i) % 2 ^ 64 := by
  rw [applyAdds_cell, applyAdds_cell]
  by_cases h : l.any (fun p => p.1 == i)
  · simp only [h, if_true]
    rw [Nat.mod_mod_of_dvd _ dvd_rfl]
    conv_rhs => rw [Nat.add_mod]
    rw [Nat.mod_mod_of_dvd _ dvd_rfl, ← Nat.add_mod]
    simp
  · simp [h]

lemma perm_any {α : Type} (l1 l2 : List α) (h : l1.Perm l2) (p : α → Bool) :
    l1.any p = l2.any p := by
  cases hb : l2.any p
  · cases hb1 : l1.any p
    · rfl
    · rcases List.any_eq_true.mp hb1 with ⟨x, hx, hp⟩
      have h2 : l2.any p = true := List.any_eq_true.mpr ⟨x, h.mem_iff.mp hx, hp⟩
      rw [hb] at h2
      exact h2.symm
  · rcases List.any_eq_true.mp hb with ⟨x, hx, hp⟩
    exact List.any_eq_true.mpr ⟨x, h.mem_iff.mpr hx, hp⟩

lemma sumAt_perm (l1 l2 : List (ℕ × ℕ)) (h : l1.Perm l2) (i : ℕ) :
    sumAt l1 i = sumAt l2 i := by
  unfold sumAt
  exact ((h.filter (fun p => p.1 == i)).map Prod.snd).sum_eq

/-- Atomic adds are order-independent: applying a permuted list of
(cell, increment) atomic additions yields the identical buffer. -/
lemma applyAdds_perm (l1 l2 : List (ℕ × ℕ)) (h : l1.Perm l2) (b : ℕ → ℕ) :
    applyAdds l1 b = applyAdds l2 b := by
  funext i
  rw [applyAdds_cell, applyAdds_cell, perm_any l1 l2 h, sumAt_perm l1 l2 h]

lemma foldl_applyAdds_flatMap {α : Type} (f : α → List (ℕ × ℕ)) :
    ∀ (l : List α) (b : ℕ → ℕ),
      l.foldl (fun c a => applyAdds (f a) c) b = applyAdds (l.flatMap f) b := by
  intro l
  induction l with
  | nil => intro b; rfl
  | cons a t ih =>
    intro b
    rw [List.foldl_cons, ih, List.flatMap_cons, applyAdds_append]

lemma foldl_applyStores_flatMap {α : Type} (f : α → List (ℕ × ℤ)) :
    ∀ (l : List α) (b : ℕ → ℤ),
      l.foldl (fun c a => applyStores (f a) c) b = applyStores (l.flatMap f) b := by
  intro l
  induction l with
  | nil => intro b; rfl
  | cons a t ih =>
    intro b
    rw [List.foldl_cons, ih, List.flatMap_cons, applyStores_append]

/-! ## Componentwise behaviour of kernel launches

A kernel launch is embedded as a fold of the per-thread body over the
thread indices; the body updates each of the three optional output
buffers independently (the if-pointer guards of the source).  The next
lemmas extract each component of such a fold. -/

lemma foldl_triple_fst {α B1 B2 B3 : Type} (u1 : α → B1 → B1) (u2 : α → B2 → B2)
    (u3 : α → B3 → B3) :
    ∀ (l : List α) (s : Option B1 × Option B2 × Option B3),
      (l.foldl (fun s a => (s.1.map (u1 a), s.2.1.map (u2 a), s.2.2.map (u3 a))) s).1 =
        s.1.map (fun b => l.foldl (fun c a => u1 a c) b) := by
  intro l
  induction l with
  | nil =>
    intro s
    cases s1 : s.1 <;> simp [s1]
  | cons a t ih =>
    intro s
    simp only [List.foldl_cons]
    rw [ih]
    cases s1 : s.1 <;> simp [s1]

lemma foldl_triple_snd {α B1 B2 B3 : Type} (u1 : α → B1 → B1) (u2 : α → B2 → B2)
    (u3 : α → B3 → B3) :
    ∀ (l : List α) (s : Option B1 × Option B2 × Option B3),
      (l.foldl (fun s a => (s.1.map (u1 a), s.2.1.map (u2 a), s.2.2.map (u3 a))) s).2.1 =
        s.2.1.map (fun b => l.foldl (fun c a => u2 a c) b) := by
  intro l
  induction l with
  | nil =>
    intro s
    cases s2 : s.2.1 <;> simp [s2]
  | cons a t ih =>
    intro s
    simp only [List.foldl_cons]
    rw [ih]
    cases s2 : s.2.1 <;> simp [s2]

lemma foldl_triple_thd {α B1 B2 B3 : Type} (u1 : α → B1 → B1) (u2 : α → B2 → B2)
    (u3 : α → B3 → B3) :
    ∀ (l : List α) (s : Option B1 × Option B2 × Option B3),
      (l.foldl (fun s a => (s.1.map (u1 a), s.2.1.map (u2 a), s.2.2.map (u3 a))) s).2.2 =
        s.2.2.map (fun b => l.foldl (fun c a => u3 a c) b) := by
  intro l
  induction l with
  | nil =>
    intro s
    cases s3 : s.2.2 <;> simp [s3]
  | cons a t ih =>
    intro s
    simp only [List.foldl_cons]
    rw [ih]
    cases s3 : s.2.2 <;> simp [s3]

/-! ## k_periodic_torsion.cuh -/

/-- dot_product from k_periodic_torsion.cuh on 3-vectors (functions on
indices 0, 1, 2). -/
def dot_product (a b : ℕ → ℚ) : ℚ := a 0 * b 0 + a 1 * b 1 + a 2 * b 2

/-- cross_product from k_periodic_torsion.cuh.  The rmul_rn calls of the
source are exact multiplications here (the embedding is exact rational
arithmetic, so bitwise anticommutativity is automatic). -/
def cross_product (a b : ℕ → ℚ) : ℕ → ℚ := fun d =>
  if d = 0 then a 1 * b 2 - a 2 * b 1
  else if d = 1 then a 2 * b 0 - a 0 * b 2
  else a 0 * b 1 - a 1 * b 0

/-- Raw coordinate difference used by k_periodic_torsion.cuh lines 49-56:
coords[a_idx*D+d] - coords[b_idx*D+d], with no periodic wrapping and no
use of the box. -/
def torsion_diff (coords : ℕ → ℚ) (D a_idx b_idx d : ℕ) : ℚ :=
  coords (a_idx * D + d) - coords (b_idx * D + d)

/-- Geometry part of one k_periodic_torsion thread (source lines 37-98):
atom indices, the four angle gradients and the torsion angle. -/
structure TorsionGeom where
  i_idx : ℕ
  j_idx : ℕ
  k_idx : ℕ
  l_idx : ℕ
  d_angle_dR0 : ℕ → ℚ
  d_angle_dR1 : ℕ → ℚ
  d_angle_dR2 : ℕ → ℚ
  d_angle_dR3 : ℕ → ℚ
  angle : ℚ

/-- Embedding of k_periodic_torsion lines 37-98 for thread t_idx. -/
def torsionGeom (ops : MathOps) (D : ℕ) (coords : ℕ → ℚ) (torsion_idxs : ℕ → ℕ)
    (t_idx : ℕ) : TorsionGeom :=
  let i_idx := torsion_idxs (t_idx * 4 + 0)
  let j_idx := torsion_idxs (t_idx * 4 + 1)
  let k_idx := torsion_idxs (t_idx * 4 + 2)
  let l_idx := torsion_idxs (t_idx * 4 + 3)
  let rij : ℕ → ℚ := fun d => torsion_diff coords D j_idx i_idx d
  let rkj : ℕ → ℚ := fun d => torsion_diff coords D j_idx k_idx d
  let rkl : ℕ → ℚ := fun d => torsion_diff coords D l_idx k_idx d
  let rkj_norm_square := rkj 0 * rkj 0 + rkj 1 * rkj 1 + rkj 2 * rkj 2
  let rkj_norm := ops.sqrt rkj_norm_square
  let n1 := cross_product rij rkj
  let n2 := cross_product rkj rkl
  let n1_norm_square := dot_product n1 n1
  let n2_norm_square := dot_product n2 n2
  let n3 := cross_product n1 n2
  let rij_dot_rkj := dot_product rij rkj
  let rkl_dot_rkj := dot_product rkl rkj
  let d_angle_dR0 : ℕ → ℚ := fun d => rkj_norm / n1_norm_square * n1 d
  let d_angle_dR3 : ℕ → ℚ := fun d => -rkj_norm / n2_norm_square * n2 d
  let d_angle_dR1 : ℕ → ℚ := fun d =>
    (rij_dot_rkj / rkj_norm_square - 1) * d_angle_dR0 d -
      d_angle_dR3 d * rkl_dot_rkj / rkj_norm_square
  let d_angle_dR2 : ℕ → ℚ := fun d =>
    (rkl_dot_rkj / rkj_norm_square - 1) * d_angle_dR3 d -
      d_angle_dR0 d * rij_dot_rkj / rkj_norm_square
  let rkj_n := ops.sqrt (dot_product rkj rkj)
  let rkj_unit : ℕ → ℚ := fun d => rkj d / rkj_n
  let y := dot_product n3 rkj_unit
  let x := dot_product n1 n2
  { i_idx := i_idx, j_idx := j_idx, k_idx := k_idx, l_idx := l_idx,
    d_angle_dR0 := d_angle_dR0, d_angle_dR1 := d_angle_dR1,
    d_angle_dR2 := d_angle_dR2, d_angle_dR3 := d_angle_dR3,
    angle := ops.atan2 y x }

/-- Atomic-add lists produced by one k_periodic_torsion thread (source
lines 100-131): the du_dx additions, the du_dp additions and the u
addition, in program order. -/
def torsionThreadAdds (ops : MathOps) (D : ℕ) (coords params : ℕ → ℚ)
    (torsion_idxs : ℕ → ℕ) (t_idx : ℕ) :
    List (ℕ × ℕ) × List (ℕ × ℕ) × List (ℕ × ℕ) :=
  let g := torsionGeom ops D coords torsion_idxs t_idx
  let kt_idx := t_idx * 3 + 0
  let phase_idx := t_idx * 3 + 1
  let period_idx := t_idx * 3 + 2
  let kt := params kt_idx
  let phase := params phase_idx
  let period := params period_idx
  let prefactor := kt * ops.sin (period * g.angle - phase) * period
  let dxAdds := (List.range 3).flatMap (fun d =>
    [(g.i_idx * D + d, FLOAT_TO_FIXED_BONDED (g.d_angle_dR0 d * prefactor)),
     (g.j_idx * D + d, FLOAT_TO_FIXED_BONDED (g.d_angle_dR1 d * prefactor)),
     (g.k_idx * D + d, FLOAT_TO_FIXED_BONDED (g.d_angle_dR2 d * prefactor)),
     (g.l_idx * D + d, FLOAT_TO_FIXED_BONDED (g.d_angle_dR3 d * prefactor))])
  let du_dkt := 1 + ops.cos (period * g.angle - phase)
  let du_dphase := kt * ops.sin (period * g.angle - phase)
  let du_dperiod := -(kt * ops.sin (period * g.angle - phase)) * g.angle
  let dpAdds :=
    [(kt_idx, FLOAT_TO_FIXED_BONDED du_dkt),
     (phase_idx, FLOAT_TO_FIXED_BONDED du_dphase),
     (period_idx, FLOAT_TO_FIXED_BONDED du_dperiod)]
  let uAdds :=
    [(g.i_idx, FLOAT_TO_FIXED_BONDED (kt * (1 + ops.cos (period * g.angle - phase))))]
  (dxAdds, dpAdds, uAdds)

/-- Embedding of a k_periodic_torsion launch over T threads.  A null
output pointer is none; each thread skips the corresponding block, and a
present buffer receives that thread's atomic additions.  All three
energy/force/gradient buffers of this kernel are unsigned long long
cells. -/
def k_periodic_torsion (ops : MathOps) (D T : ℕ) (coords params : ℕ → ℚ)
    (torsion_idxs : ℕ → ℕ)
    (du_dx du_dp u : Option (ℕ → ℕ)) :
    Option (ℕ → ℕ) × Option (ℕ → ℕ) × Option (ℕ → ℕ) :=
  (List.range T).foldl
    (fun s t_idx =>
      (s.1.map (applyAdds (torsionThreadAdds ops D coords params torsion_idxs t_idx).1),
       s.2.1.map (applyAdds (torsionThreadAdds ops D coords params torsion_idxs t_idx).2.1),
       s.2.2.map (applyAdds (torsionThreadAdds ops D coords params torsion_idxs t_idx).2.2)))
    (du_dx, du_dp, u)

/-! ## k_log_flat_bottom_bond.cuh -/

/-- Embedding of nearbyint under the default round-to-nearest,
ties-to-even rounding mode. -/
def nearbyintQ (q : ℚ) : ℤ :=
  if q - ⌊q⌋ < 1 / 2 then ⌊q⌋
  else if (1 : ℚ) / 2 < q - ⌊q⌋ then ⌊q⌋ + 1
  else if Even ⌊q⌋ then ⌊q⌋ else ⌊q⌋ + 1

/-- Minimum-image displacement of k_log_flat_bottom_bond.cuh lines 49-51:
the raw difference reduced by the box diagonal times the nearest integer
multiple. -/
def bond_displacement (coords box : ℕ → ℚ) (src_idx dst_idx d : ℕ) : ℚ :=
  let delta := coords (src_idx * 3 + d) - coords (dst_idx * 3 + d)
  delta - box (d * 3 + d) * (nearbyintQ (delta / box (d * 3 + d)) : ℚ)

/-- stable_log_1_exp_neg from k_log_flat_bottom_bond.cuh. -/
def stable_log_1_exp_neg (ops : MathOps) (x : ℚ) : ℚ :=
  let LOG_2 : ℚ := 0.693147180559945309417232121
  if x < LOG_2 then ops.log (-(ops.expm1 (-x))) else ops.log1p (-(ops.exp (-x)))

/-- Per-thread output of k_log_flat_bottom_bond (source lines 29-104) for
bond b_idx: the du_dx atomic-add list, the du_dp atomic-add list, and the
u store list (the source writes u[b_idx] = ... directly).  The function
cfbe stands for compute_flat_bottom_energy of k_flat_bottom_bond.cuh,
which is not among the provided sources; the spec leaves the closed-form
physics of a variant out of scope, so it is a parameter here. -/
def bondThreadAdds (ops : MathOps) (cfbe : ℚ → ℚ → ℚ → ℚ → ℚ)
    (coords box params : ℕ → ℚ) (bond_idxs : ℕ → ℕ) (beta : ℚ) (b_idx : ℕ) :
    List (ℕ × ℕ) × List (ℕ × ℕ) × List (ℕ × ℤ) :=
  let num_atoms := 2
  let atoms_idx := b_idx * num_atoms
  let src_idx := bond_idxs (atoms_idx + 0)
  let dst_idx := bond_idxs (atoms_idx + 1)
  let num_params := 3
  let params_idx := b_idx * num_params
  let k_idx := params_idx + 0
  let rmin_idx := params_idx + 1
  let rmax_idx := params_idx + 2
  let k := params k_idx
  let rmin := params rmin_idx
  let rmax := params rmax_idx
  let dx : ℕ → ℚ := fun d => bond_displacement coords box src_idx dst_idx d
  let r2 := dx 0 * dx 0 + dx 1 * dx 1 + dx 2 * dx 2
  let r := ops.sqrt r2
  let r_gt_rmax : ℚ := if rmax < r then 1 else 0
  let r_lt_rmin : ℚ := if r < rmin then 1 else 0
  let nrg := cfbe k r rmin rmax
  let u_real := -stable_log_1_exp_neg ops (beta * nrg) / beta
  let uStores := [(b_idx, FLOAT_TO_FIXED_ENERGY u_real)]
  let prefactor := -ops.exp (-(beta * nrg)) / (1 - ops.exp (-(beta * nrg)))
  let du_dk_real := r_gt_rmax * ((r - rmax) ^ 4 / 4) + r_lt_rmin * ((r - rmin) ^ 4 / 4)
  let du_drmin_real := r_lt_rmin * (-k * (r - rmin) ^ 3)
  let du_drmax_real := r_gt_rmax * (-k * (r - rmax) ^ 3)
  let dpAdds :=
    [(k_idx, FLOAT_TO_FIXED_BONDED (du_dk_real * prefactor)),
     (rmin_idx, FLOAT_TO_FIXED_BONDED (du_drmin_real * prefactor)),
     (rmax_idx, FLOAT_TO_FIXED_BONDED (du_drmax_real * prefactor))]
  let du_dr := k * (r_gt_rmax * (r - rmax) ^ 3 + r_lt_rmin * (r - rmin) ^ 3)
  let dxAdds := (List.range 3).flatMap (fun d =>
    [(src_idx * 3 + d, FLOAT_TO_FIXED_BONDED (prefactor * (du_dr * dx d / r))),
     (dst_idx * 3 + d, FLOAT_TO_FIXED_BONDED (prefactor * -(du_dr * dx d / r)))])
  (dxAdds, dpAdds, uStores)

/-- Embedding of a k_log_flat_bottom_bond launch over B threads.  The
du_dx and du_dp buffers are unsigned long long cells updated by atomic
addition; the u buffer is __int128 cells written by direct store. -/
def k_log_flat_bottom_bond (ops : MathOps) (cfbe : ℚ → ℚ → ℚ → ℚ → ℚ) (B : ℕ)
    (coords box params : ℕ → ℚ) (bond_idxs : ℕ → ℕ) (beta : ℚ)
    (du_dx du_dp : Option (ℕ → ℕ)) (u : Option (ℕ → ℤ)) :
    Option (ℕ → ℕ) × Option (ℕ → ℕ) × Option (ℕ → ℤ) :=
  (List.range B).foldl
    (fun s b_idx =>
      (s.1.map (applyAdds (bondThreadAdds ops cfbe coords box params bond_idxs beta b_idx).1),
       s.2.1.map (applyAdds (bondThreadAdds ops cfbe coords box params bond_idxs beta b_idx).2.1),
       s.2.2.map (applyStores (bondThreadAdds ops cfbe coords box params bond_idxs beta b_idx).2.2)))
    (du_dx, du_dp, u)

/-! ## PotentialRunner (modelled from the spec) -/

/-- Modelled from the spec: PotentialRunner and the concrete
Potential::execute_device bodies are not among the provided sources.  Per
spec sections 4.2 and 4.3, a bound potential contributes to the shared
force, parameter-gradient and energy buffers exclusively through atomic
additions of encoded fixed-point values; a bound potential is therefore
modelled by the three (cell, increment) atomic-add lists it produces from
the round's coordinates and box. -/
structure BoundPotentialM where
  dxAdds : (ℕ → ℚ) → (ℕ → ℚ) → List (ℕ × ℕ)
  dpAdds : (ℕ → ℚ) → (ℕ → ℚ) → List (ℕ × ℕ)
  uAdds : (ℕ → ℚ) → (ℕ → ℚ) → List (ℕ × ℕ)

/-- Modelled from the spec: PotentialRunner::execute_potentials is not
among the provided sources.  Per spec section 4.3 the runner zeroes every
non-null output buffer for the round and then dispatches each bound
potential in order against the same coordinates and box; each dispatch
lands its contributions by atomic addition. -/
def execute_potentials (bps : List BoundPotentialM) (coords box : ℕ → ℚ)
    (du_dx du_dp u : Option (ℕ → ℕ)) :
    Option (ℕ → ℕ) × Option (ℕ → ℕ) × Option (ℕ → ℕ) :=
  bps.foldl
    (fun s bp =>
      (s.1.map (applyAdds (bp.dxAdds coords box)),
       s.2.1.map (applyAdds (bp.dpAdds coords box)),
       s.2.2.map (applyAdds (bp.uAdds coords box))))
    (du_dx.map (fun _ => fun _ => 0),
     du_dp.map (fun _ => fun _ => 0),
     u.map (fun _ => fun _ => 0))

/-! ## device_buffer.cu -/

/-- DeviceBuffer of device_buffer.cu: size is the byte count recorded at
construction, dataElems the number of elements of the single owned
allocation. -/
structure DeviceBuffer where
  size : ℕ
  dataElems : ℕ
  deriving DecidableEq

/-- allocate from device_buffer.cu: lengths below 1 raise a runtime error
before anything is allocated; otherwise cudaSafeMalloc allocates exactly
length elements (length * sizeof(T) bytes). -/
def allocate (length : ℕ) : Except String ℕ :=
  if length < 1 then Except.error "device buffer length must at least be 1"
  else Except.ok length

/-- DeviceBuffer constructor from device_buffer.cu: records
length * sizeof(T) as size and owns the allocation made by allocate. -/
def DeviceBuffer.construct (sizeofT length : ℕ) : Except String DeviceBuffer :=
  (allocate length).map (fun n => { size := length * sizeofT, dataElems := n })

/-! ## langevin_integrator.cu -/

/-- Langevin integrator state: per-construction coefficients ca, cbs,
ccs, the RNG seed and the number of random draws already consumed by the
seeded curand stream (the generator state). -/
structure LangevinIntegrator where
  N : ℕ
  temperature : ℚ
  dt : ℚ
  friction : ℚ
  ca : ℚ
  cbs : ℕ → ℚ
  ccs : ℕ → ℚ
  seed : ℕ
  rngOffset : ℕ

/-- Modelled from the spec: round_up_even of gpu_utils.cuh is not among
the provided sources; per the spec the draw count is padded to an even
number. -/
def round_up_even (n : ℕ) : ℕ := if n % 2 = 0 then n else n + 1

/-- LangevinIntegrator constructor (langevin_integrator.cu lines 85-109).
BOLTZ comes from constants.hpp, which is not among the provided sources,
so its value is a parameter. -/
def LangevinIntegrator.construct (ops : MathOps) (BOLTZ : ℚ) (N : ℕ)
    (masses : ℕ → ℚ) (temperature dt friction : ℚ) (seed : ℕ) :
    LangevinIntegrator :=
  let ca := ops.exp (-friction * dt)
  let kT := BOLTZ * temperature
  let ccs_adjustment := ops.sqrt (1 - ops.exp (-2 * friction * dt))
  { N := N, temperature := temperature, dt := dt, friction := friction,
    ca := ca,
    cbs := fun i => dt / masses i,
    ccs := fun i => ccs_adjustment * ops.sqrt (kT / masses i),
    seed := seed, rngOffset := 0 }

/-- Modelled from the spec: k_integrator.cuh (update_forward_baoab) is
not among the provided sources.  Per spec section 4.5, for each active
atom the new velocity combines the old velocity scaled by ca, an impulse
from the decoded force scaled by cbs, and a stochastic kick scaled by
ccs; the position advances by the new velocity times dt; atoms masked
inactive receive neither update. -/
def update_forward_baoab (N D : ℕ) (ca : ℚ) (idxs : Option (ℕ → Bool))
    (cbs ccs noise x v : ℕ → ℚ) (du_dx : ℕ → ℕ) (dt : ℚ) :
    (ℕ → ℚ) × (ℕ → ℚ) :=
  let active : ℕ → Bool := fun i =>
    match idxs with
    | none => true
    | some m => m i
  let vnew : ℕ → ℚ := fun n =>
    if n < N * D ∧ active (n / D) = true then
      ca * v n + cbs (n / D) * (-FIXED_TO_FLOAT (du_dx n)) + ccs (n / D) * noise n
    else v n
  let xnew : ℕ → ℚ := fun n =>
    if n < N * D ∧ active (n / D) = true then x n + vnew n * dt else x n
  (xnew, vnew)

/-- step_fwd from langevin_integrator.cu lines 121-153: zero the force
scratch buffer, run the potentials for forces only (du_dp and u null),
draw round_up_even(N*3) Gaussian values from the seeded stream, and issue
the BAOAB update.  The curand stream is modelled as a pure function rng
of the seed and the draw index; the returned state has consumed the
round's draws. -/
def LangevinIntegrator.step_fwd (s : LangevinIntegrator) (rng : ℕ → ℕ → ℚ)
    (bps : List BoundPotentialM) (x v box : ℕ → ℚ) (idxs : Option (ℕ → Bool)) :
    (ℕ → ℚ) × (ℕ → ℚ) × LangevinIntegrator :=
  let D := 3
  let du_dx := ((execute_potentials bps x box (some (fun _ => 0)) none none).1).getD
    (fun _ => 0)
  let noise : ℕ → ℚ := fun n => rng s.seed (s.rngOffset + n)
  let xv := update_forward_baoab s.N D s.ca idxs s.cbs s.ccs noise x v du_dx s.dt
  (xv.1, xv.2, { s with rngOffset := s.rngOffset + round_up_even (s.N * D) })

/-- Iterated stepping: the position/velocity/integrator-state trajectory
after n calls of step_fwd. -/
def trajectory (rng : ℕ → ℕ → ℚ) (bps : List BoundPotentialM) (box : ℕ → ℚ)
    (idxs : Option (ℕ → Bool)) (s0 : LangevinIntegrator) (x0 v0 : ℕ → ℚ) :
    ℕ → (ℕ → ℚ) × (ℕ → ℚ) × LangevinIntegrator
  | 0 => (x0, v0, s0)
  | n + 1 =>
    let p := trajectory rng bps box idxs s0 x0 v0 n
    p.2.2.step_fwd rng bps p.1 p.2.1 box idxs

/-! ## Channel decomposition of the kernel launches -/

/-- Concatenated du_dx atomic-add list of a T-thread torsion launch. -/
def torsion_dx_adds (ops : MathOps) (D T : ℕ) (coords params : ℕ → ℚ)
    (torsion_idxs : ℕ → ℕ) : List (ℕ × ℕ) :=
  (List.range T).flatMap (fun t => (torsionThreadAdds ops D coords params torsion_idxs t).1)

/-- Concatenated du_dp atomic-add list of a T-thread torsion launch. -/
def torsion_dp_adds (ops : MathOps) (D T : ℕ) (coords params : ℕ → ℚ)
    (torsion_idxs : ℕ → ℕ) : List (ℕ × ℕ) :=
  (List.range T).flatMap (fun t => (torsionThreadAdds ops D coords params torsion_idxs t).2.1)

/-- Concatenated u atomic-add list of a T-thread torsion launch. -/
def torsion_u_adds (ops : MathOps) (D T : ℕ) (coords params : ℕ → ℚ)
    (torsion_idxs : ℕ → ℕ) : List (ℕ × ℕ) :=
  (List.range T).flatMap (fun t => (torsionThreadAdds ops D coords params torsion_idxs t).2.2)

/-- Concatenated du_dx atomic-add list of a B-thread flat-bottom-bond
launch. -/
def bond_dx_adds (ops : MathOps) (cfbe : ℚ → ℚ → ℚ → ℚ → ℚ) (B : ℕ)
    (coords box params : ℕ → ℚ) (bond_idxs : ℕ → ℕ) (beta : ℚ) : List (ℕ × ℕ) :=
  (List.range B).flatMap
    (fun b => (bondThreadAdds ops cfbe coords box params bond_idxs beta b).1)

/-- Concatenated du_dp atomic-add list of a B-thread flat-bottom-bond
launch. -/
def bond_dp_adds (ops : MathOps) (cfbe : ℚ → ℚ → ℚ → ℚ → ℚ) (B : ℕ)
    (coords box params : ℕ → ℚ) (bond_idxs : ℕ → ℕ) (beta : ℚ) : List (ℕ × ℕ) :=
  (List.range B).flatMap
    (fun b => (bondThreadAdds ops cfbe coords box params bond_idxs beta b).2.1)

/-- Concatenated u store list of a B-thread flat-bottom-bond launch. -/
def bond_u_stores (ops : MathOps) (cfbe : ℚ → ℚ → ℚ → ℚ → ℚ) (B : ℕ)
    (coords box params : ℕ → ℚ) (bond_idxs : ℕ → ℕ) (beta : ℚ) : List (ℕ × ℤ) :=
  (List.range B).flatMap
    (fun b => (bondThreadAdds ops cfbe coords box params bond_idxs beta b).2.2)

lemma k_periodic_torsion_fst (ops : MathOps) (D T : ℕ) (coords params : ℕ → ℚ)
    (torsion_idxs : ℕ → ℕ) (du_dx du_dp u : Option (ℕ → ℕ)) :
    (k_periodic_torsion ops D T coords params torsion_idxs du_dx du_dp u).1 =
      du_dx.map (applyAdds (torsion_dx_adds ops D T coords params torsion_idxs)) := by
  have h1 : (k_periodic_torsion ops D T coords params torsion_idxs du_dx du_dp u).1 =
      du_dx.map (fun b => (List.range T).foldl
        (fun c t => applyAdds ((torsionThreadAdds ops D coords params torsion_idxs t).1) c) b) :=
    foldl_triple_fst _ _ _ (List.range T) (du_dx, du_dp, u)
  rw [h1]
  unfold torsion_dx_adds
  congr 1
  funext b
  exact foldl_applyAdds_flatMap _ (List.range T) b

lemma k_periodic_torsion_snd (ops : MathOps) (D T : ℕ) (coords params : ℕ → ℚ)
    (torsion_idxs : ℕ → ℕ) (du_dx du_dp u : Option (ℕ → ℕ)) :
    (k_periodic_torsion ops D T coords params torsion_idxs du_dx du_dp u).2.1 =
      du_dp.map (applyAdds (torsion_dp_adds ops D T coords params torsion_idxs)) := by
  have h1 : (k_periodic_torsion ops D T coords params torsion_idxs du_dx du_dp u).2.1 =
      du_dp.map (fun b => (List.range T).foldl
        (fun c t => applyAdds ((torsionThreadAdds ops D coords params torsion_idxs t).2.1) c) b) :=
    foldl_triple_snd _ _ _ (List.range T) (du_dx, du_dp, u)
  rw [h1]
  unfold torsion_dp_adds
  congr 1
  funext b
  exact foldl_applyAdds_flatMap _ (List.range T) b

lemma k_periodic_torsion_thd (ops : MathOps) (D T : ℕ) (coords params : ℕ → ℚ)
    (torsion_idxs : ℕ → ℕ) (du_dx du_dp u : Option (ℕ → ℕ)) :
    (k_periodic_torsion ops D T coords params torsion_idxs du_dx du_dp u).2.2 =
      u.map (applyAdds (torsion_u_adds ops D T coords params torsion_idxs)) := by
  have h1 : (k_periodic_torsion ops D T coords params torsion_idxs du_dx du_dp u).2.2 =
      u.map (fun b => (List.range T).foldl
        (fun c t => applyAdds ((torsionThreadAdds ops D coords params torsion_idxs t).2.2) c) b) :=
    foldl_triple_thd _ _ _ (List.range T) (du_dx, du_dp, u)
  rw [h1]
  unfold torsion_u_adds
  congr 1
  funext b
  exact foldl_applyAdds_flatMap _ (List.range T) b

lemma k_log_flat_bottom_bond_fst (ops : MathOps) (cfbe : ℚ → ℚ → ℚ → ℚ → ℚ) (B : ℕ)
    (coords box params : ℕ → ℚ) (bond_idxs : ℕ → ℕ) (beta : ℚ)
    (du_dx du_dp : Option (ℕ → ℕ)) (u : Option (ℕ → ℤ)) :
    (k_log_flat_bottom_bond ops cfbe B coords box params bond_idxs beta du_dx du_dp u).1 =
      du_dx.map (applyAdds (bond_dx_adds ops cfbe B coords box params bond_idxs beta)) := by
  have h1 : (k_log_flat_bottom_bond ops cfbe B coords box params bond_idxs beta du_dx du_dp u).1 =
      du_dx.map (fun b => (List.range B).foldl
        (fun c t => applyAdds ((bondThreadAdds ops cfbe coords box params bond_idxs beta t).1) c) b) :=
    foldl_triple_fst _ _ _ (List.range B) (du_dx, du_dp, u)
  rw [h1]
  unfold bond_dx_adds
  congr 1
  funext b
  exact foldl_applyAdds_flatMap _ (List.range B) b

lemma k_log_flat_bottom_bond_snd (ops : MathOps) (cfbe : ℚ → ℚ → ℚ → ℚ → ℚ) (B : ℕ)
    (coords box params : ℕ → ℚ) (bond_idxs : ℕ → ℕ) (beta : ℚ)
    (du_dx du_dp : Option (ℕ → ℕ)) (u : Option (ℕ → ℤ)) :
    (k_log_flat_bottom_bond ops cfbe B coords box params bond_idxs beta du_dx du_dp u).2.1 =
      du_dp.map (applyAdds (bond_dp_adds ops cfbe B coords box params bond_idxs beta)) := by
  have h1 : (k_log_flat_bottom_bond ops cfbe B coords box params bond_idxs beta du_dx du_dp u).2.1 =
      du_dp.map (fun b => (List.range B).foldl
        (fun c t => applyAdds ((bondThreadAdds ops cfbe coords box params bond_idxs beta t).2.1) c) b) :=
    foldl_triple_snd _ _ _ (List.range B) (du_dx, du_dp, u)
  rw [h1]
  unfold bond_dp_adds
  congr 1
  funext b
  exact foldl_applyAdds_flatMap _ (List.range B) b

lemma k_log_flat_bottom_bond_thd (ops : MathOps) (cfbe : ℚ → ℚ → ℚ → ℚ → ℚ) (B : ℕ)
    (coords box params : ℕ → ℚ) (bond_idxs : ℕ → ℕ) (beta : ℚ)
    (du_dx du_dp : Option (ℕ → ℕ)) (u : Option (ℕ → ℤ)) :
    (k_log_flat_bottom_bond ops cfbe B coords box params bond_idxs beta du_dx du_dp u).2.2 =
      u.map (applyStores (bond_u_stores ops cfbe B coords box params bond_idxs beta)) := by
  have h1 : (k_log_flat_bottom_bond ops cfbe B coords box params bond_idxs beta du_dx du_dp u).2.2 =
      u.map (fun b => (List.range B).foldl
        (fun c t => applyStores ((bondThreadAdds ops cfbe coords box params bond_idxs beta t).2.2) c) b) :=
    foldl_triple_thd _ _ _ (List.range B) (du_dx, du_dp, u)
  rw [h1]
  unfold bond_u_stores
  congr 1
  funext b
  exact foldl_applyStores_flatMap _ (List.range B) b

/-! ## Rounding facts for the minimum-image convention -/

lemma nearbyintQ_dist (q : ℚ) : |q - (nearbyintQ q : ℚ)| ≤ 1 / 2 := by
  have h0 : (⌊q⌋ : ℚ) ≤ q := Int.floor_le q
  have h1 : q < ⌊q⌋ + 1 := Int.lt_floor_add_one q
  unfold nearbyintQ
  split_ifs with ha hb hc
  · rw [abs_of_nonneg (by linarith)]
    linarith
  · push_neg at ha
    rw [abs_of_nonpos (by push_cast; linarith)]
    push_cast
    linarith
  · push_neg at ha hb
    have hq : q - ⌊q⌋ = 1 / 2 := le_antisymm hb ha
    rw [abs_of_nonneg (by linarith)]
    linarith
  · push_neg at ha hb
    have hq : q - ⌊q⌋ = 1 / 2 := le_antisymm hb ha
    rw [abs_of_nonpos (by push_cast; linarith)]
    push_cast
    linarith

lemma wrapped_abs_le (delta L : ℚ) (hL : 0 < L) :
    |delta - L * (nearbyintQ (delta / L) : ℚ)| ≤ L / 2 := by
  have h := nearbyintQ_dist (delta / L)
  have hL0 : L ≠ 0 := ne_of_gt hL
  have hrw : delta - L * (nearbyintQ (delta / L) : ℚ) =
      L * (delta / L - (nearbyintQ (delta / L) : ℚ)) := by
    field_simp
  rw [hrw, abs_mul, abs_of_pos hL]
  calc L * |delta / L - (nearbyintQ (delta / L) : ℚ)| ≤ L * (1 / 2) :=
        mul_le_mul_of_nonneg_left h (le_of_lt hL)
    _ = L / 2 := by ring

/-! ## Claim theorems -/

/-- C1 counterexample: LLONG_MAX itself is inside the representable range
of the narrower long long signed integer, yet fixed_point_overflow
reports it as overflowed, so "true iff the accumulated value has left the
representable range" fails at the boundary. -/
theorem fixed_point_overflow_flags_representable_boundary :
    long_long_representable LLONG_MAX ∧
      fixed_point_overflow LLONG_MAX = true := by
  constructor
  · constructor <;> decide
  · decide

/-- C1 (amended): for every wide (__int128-range) value v,
fixed_point_overflow returns true exactly when v is at or beyond the
long long boundaries, v >= LLONG_MAX or v <= LLONG_MIN; values at the
boundary report overflow even though they are representable, and values
strictly between the boundaries do not. -/
theorem fixed_point_overflow_boundary_inclusive (v : ℤ)
    (h1 : -(2 ^ 127) ≤ v) (h2 : v < 2 ^ 127) :
    fixed_point_overflow v = true ↔ (LLONG_MAX ≤ v ∨ v ≤ LLONG_MIN) := by
  unfold fixed_point_overflow
  simp

/-- Witness for the amended C1 theorem at v = 2^63. -/
theorem fixed_point_overflow_boundary_inclusive_witness :
    ((-(2 ^ 127) ≤ (2 ^ 63 : ℤ)) ∧ ((2 ^ 63 : ℤ) < 2 ^ 127)) ∧
      (fixed_point_overflow (2 ^ 63) = true ↔
        (LLONG_MAX ≤ (2 ^ 63 : ℤ) ∨ (2 ^ 63 : ℤ) ≤ LLONG_MIN)) :=
  ⟨⟨by decide, by decide⟩,
    fixed_point_overflow_boundary_inclusive (2 ^ 63) (by decide) (by decide)⟩

/-- Concrete configuration for claim C3: atom 0 at x = 0.1, atom 1 at
x = 9.9, in an orthorhombic box of side 10. -/
def coordsAcrossBoundary : ℕ → ℚ := fun n =>
  if n = 0 then 1 / 10 else if n = 3 then 99 / 10 else 0

/-- Box with diagonal entry box[0][0] = 10. -/
def boxTen : ℕ → ℚ := fun n => if n = 0 then 10 else 0

/-- C3 counterexample: for two atoms placed across the periodic boundary,
the displacement computed by the periodic torsion kernel (torsion_diff,
used for rij, rkj and rkl) is the raw coordinate difference 9.8 and not
the wrapped minimum-image separation -0.2 that the flat-bottom bond
kernel computes; so not every Potential variant applies the minimum-image
convention. -/
theorem torsion_displacement_not_minimum_image :
    torsion_diff coordsAcrossBoundary 3 1 0 0 = 49 / 5 ∧
      bond_displacement coordsAcrossBoundary boxTen 1 0 0 = -(1 / 5) ∧
      ¬ ((49 : ℚ) / 5 = -(1 / 5)) := by
  refine ⟨?_, ?_, by norm_num⟩
  · unfold torsion_diff coordsAcrossBoundary
    norm_num
  · unfold bond_displacement nearbyintQ coordsAcrossBoundary boxTen
    norm_num

/-- C3 (amended): the flat-bottom bond kernel computes minimum-image
displacements with the box diagonal — its displacement differs from the
raw difference by an integer multiple of the box length and has absolute
value at most half the box length — while the periodic torsion kernel
uses the raw coordinate difference with no box reduction. -/
theorem displacement_minimum_image_per_kernel (coords box : ℕ → ℚ)
    (src_idx dst_idx d : ℕ) (hL : 0 < box (d * 3 + d)) :
    (∃ n : ℤ, bond_displacement coords box src_idx dst_idx d =
        (coords (src_idx * 3 + d) - coords (dst_idx * 3 + d)) - (n : ℚ) * box (d * 3 + d))
    ∧ |bond_displacement coords box src_idx dst_idx d| ≤ box (d * 3 + d) / 2
    ∧ (∀ D a_idx b_idx d2, torsion_diff coords D a_idx b_idx d2 =
        coords (a_idx * D + d2) - coords (b_idx * D + d2)) := by
  refine ⟨?_, ?_, fun D a_idx b_idx d2 => rfl⟩
  · refine ⟨nearbyintQ ((coords (src_idx * 3 + d) - coords (dst_idx * 3 + d)) / box (d * 3 + d)), ?_⟩
    unfold bond_displacement
    ring
  · unfold bond_displacement
    exact wrapped_abs_le _ _ hL

/-- Witness for the amended C3 theorem at the concrete boundary-crossing
configuration. -/
theorem displacement_minimum_image_per_kernel_witness :
    (0 : ℚ) < boxTen (0 * 3 + 0) ∧
      ((∃ n : ℤ, bond_displacement coordsAcrossBoundary boxTen 1 0 0 =
          (coordsAcrossBoundary (1 * 3 + 0) - coordsAcrossBoundary (0 * 3 + 0)) -
            (n : ℚ) * boxTen (0 * 3 + 0))
        ∧ |bond_displacement coordsAcrossBoundary boxTen 1 0 0| ≤ boxTen (0 * 3 + 0) / 2
        ∧ (∀ D a_idx b_idx d2, torsion_diff coordsAcrossBoundary D a_idx b_idx d2 =
            coordsAcrossBoundary (a_idx * D + d2) - coordsAcrossBoundary (b_idx * D + d2))) :=
  ⟨by norm_num [boxTen],
    displacement_minimum_image_per_kernel coordsAcrossBoundary boxTen 1 0 0
      (by norm_num [boxTen])⟩

/-- Math-ops instantiation whose primitives all return 0, used to
evaluate the embedding on concrete inputs. -/
def opsZero : MathOps :=
  { sqrt := fun _ => 0, exp := fun _ => 0, expm1 := fun _ => 0, log := fun _ => 0,
    log1p := fun _ => 0, sin := fun _ => 0, cos := fun _ => 0, atan2 := fun _ _ => 0 }

/-- Concrete flat-bottom energy function returning 0. -/
def cfbeZero : ℚ → ℚ → ℚ → ℚ → ℚ := fun _ _ _ _ => 0

/-- C2 counterexample: one k_log_flat_bottom_bond invocation (B = 1)
against a pre-populated energy buffer holding 5 in slot 0.  The
invocation's own contribution, read off a zeroed buffer, is 0, so the
claim requires the result 5 + 0 = 5; the kernel instead stores 0 into the
slot, overwriting the prior contents. -/
theorem log_flat_bottom_bond_overwrites_energy :
    ((k_log_flat_bottom_bond opsZero cfbeZero 1 (fun _ => 0) (fun _ => 1) (fun _ => 0)
        (fun _ => 0) 1 none none (some (fun _ => 5))).2.2).map (fun f => f 0) = some 0
    ∧ ((k_log_flat_bottom_bond opsZero cfbeZero 1 (fun _ => 0) (fun _ => 1) (fun _ => 0)
        (fun _ => 0) 1 none none (some (fun _ => 0))).2.2).map (fun f => f 0) = some 0
    ∧ (5 : ℤ) + 0 ≠ 0 := by
  refine ⟨?_, ?_, by norm_num⟩ <;>
  · rw [k_log_flat_bottom_bond_thd]
    unfold bond_u_stores bondThreadAdds stable_log_1_exp_neg FLOAT_TO_FIXED_ENERGY wrap128
    norm_num [applyStores, storeI128, opsZero, cfbeZero, List.range_succ]

/-- C2 (amended): the force (du_dx) and parameter-gradient (du_dp)
channels of both kernels, and the energy channel of the torsion kernel,
add their encoded contributions into the existing buffer contents (the
result cell equals prior contents plus the zero-buffer contribution,
modulo the 64-bit cell width); the log flat bottom bond kernel however
writes each bond's encoded energy directly into its per-bond slot
u[b_idx], so slots it writes are set independently of prior contents
(an overwrite, not an accumulation). -/
theorem execute_adds_into_buffers (ops : MathOps) (cfbe : ℚ → ℚ → ℚ → ℚ → ℚ)
    (D T B : ℕ) (coords box params : ℕ → ℚ) (tidxs bidxs : ℕ → ℕ) (beta : ℚ)
    (bx bp bu : ℕ → ℕ) (bz bz2 : ℕ → ℤ) (i : ℕ) :
    (k_periodic_torsion ops D T coords params tidxs (some bx) (some bp) (some bu) =
      (some (applyAdds (torsion_dx_adds ops D T coords params tidxs) bx),
       some (applyAdds (torsion_dp_adds ops D T coords params tidxs) bp),
       some (applyAdds (torsion_u_adds ops D T coords params tidxs) bu)))
    ∧ (k_log_flat_bottom_bond ops cfbe B coords box params bidxs beta
        (some bx) (some bp) (some bz) =
      (some (applyAdds (bond_dx_adds ops cfbe B coords box params bidxs beta) bx),
       some (applyAdds (bond_dp_adds ops cfbe B coords box params bidxs beta) bp),
       some (applyStores (bond_u_stores ops cfbe B coords box params bidxs beta) bz)))
    ∧ applyAdds (torsion_dx_adds ops D T coords params tidxs) bx i % 2 ^ 64 =
        (bx i + applyAdds (torsion_dx_adds ops D T coords params tidxs) (fun _ => 0) i) % 2 ^ 64
    ∧ applyAdds (torsion_dp_adds ops D T coords params tidxs) bp i % 2 ^ 64 =
        (bp i + applyAdds (torsion_dp_adds ops D T coords params tidxs) (fun _ => 0) i) % 2 ^ 64
    ∧ applyAdds (torsion_u_adds ops D T coords params tidxs) bu i % 2 ^ 64 =
        (bu i + applyAdds (torsion_u_adds ops D T coords params tidxs) (fun _ => 0) i) % 2 ^ 64
    ∧ applyAdds (bond_dx_adds ops cfbe B coords box params bidxs beta) bx i % 2 ^ 64 =
        (bx i + applyAdds (bond_dx_adds ops cfbe B coords box params bidxs beta)
          (fun _ => 0) i) % 2 ^ 64
    ∧ applyAdds (bond_dp_adds ops cfbe B coords box params bidxs beta) bp i % 2 ^ 64 =
        (bp i + applyAdds (bond_dp_adds ops cfbe B coords box params bidxs beta)
          (fun _ => 0) i) % 2 ^ 64
    ∧ ((bond_u_stores ops cfbe B coords box params bidxs beta).any
          (fun p => p.1 == i) = true →
        applyStores (bond_u_stores ops cfbe B coords box params bidxs beta) bz i =
          applyStores (bond_u_stores ops cfbe B coords box params bidxs beta) bz2 i) := by
  refine ⟨?_, ?_, applyAdds_zero_offset _ _ _, applyAdds_zero_offset _ _ _,
    applyAdds_zero_offset _ _ _, applyAdds_zero_offset _ _ _, applyAdds_zero_offset _ _ _,
    fun h => applyStores_prior_independent _ _ _ _ h⟩
  · refine Prod.ext ?_ (Prod.ext ?_ ?_) <;>
      simp [k_periodic_torsion_fst, k_periodic_torsion_snd, k_periodic_torsion_thd]
  · refine Prod.ext ?_ (Prod.ext ?_ ?_) <;>
      simp [k_log_flat_bottom_bond_fst, k_log_flat_bottom_bond_snd, k_log_flat_bottom_bond_thd]

/-- Witness for the amended C2 theorem: the bond kernel's store-list at
the concrete B = 1 configuration touches slot 0, and the overwrite
equality holds for the buffers holding 5 and 7 there. -/
theorem execute_adds_into_buffers_witness :
    ((bond_u_stores opsZero cfbeZero 1 (fun _ => 0) (fun _ => 1) (fun _ => 0)
        (fun _ => 0) 1).any (fun p => p.1 == 0) = true)
    ∧ applyStores (bond_u_stores opsZero cfbeZero 1 (fun _ => 0) (fun _ => 1) (fun _ => 0)
        (fun _ => 0) 1) (fun _ => 5) 0 =
      applyStores (bond_u_stores opsZero cfbeZero 1 (fun _ => 0) (fun _ => 1) (fun _ => 0)
        (fun _ => 0) 1) (fun _ => 7) 0 := by
  have hany : ((bond_u_stores opsZero cfbeZero 1 (fun _ => 0) (fun _ => 1) (fun _ => 0)
      (fun _ => 0) 1).any (fun p => p.1 == 0) = true) := by
    unfold bond_u_stores bondThreadAdds
    simp
  exact ⟨hany,
    (execute_adds_into_buffers opsZero cfbeZero 3 0 1 (fun _ => 0) (fun _ => 1) (fun _ => 0)
      (fun _ => 0) (fun _ => 0) 1 (fun _ => 0) (fun _ => 0) (fun _ => 0)
      (fun _ => 5) (fun _ => 7) 0).2.2.2.2.2.2.2 hany⟩

/-- Torsion parameter row with kt = 2^-36 (one encoding quantum), phase
= 0 and period = 0. -/
def paramsKt : ℕ → ℚ := fun n => if n = 0 then 1 / 68719476736 else 0

/-- C4 counterexample: the periodic torsion kernel's energy buffer u is
unsigned long long — the same 64-bit width as the force channel, not at
least twice it.  Accumulating one quantum into a slot holding 2^64 - 1
wraps to 0, though the exact sum 2^64 fits easily in the at-least-128-bit
accumulator the claim requires. -/
theorem torsion_energy_accumulator_wraps_64 :
    ((k_periodic_torsion opsZero 3 1 (fun _ => 0) paramsKt (fun _ => 0) none none
        (some (fun _ => 2 ^ 64 - 1))).2.2).map (fun f => f 0) = some 0
    ∧ (2 ^ 64 - 1) + 1 ≠ (0 : ℕ)
    ∧ ((2 : ℤ) ^ 64 - 1) + 1 < 2 ^ 127 := by
  refine ⟨?_, by norm_num, by norm_num⟩
  rw [k_periodic_torsion_thd]
  unfold torsion_u_adds torsionThreadAdds FLOAT_TO_FIXED_BONDED FIXED_EXPONENT
  norm_num [applyAdds, atomicAddU64, opsZero, paramsKt, List.range_succ, torsionGeom,
    round_eq]

/-- C4 (amended): energy decoding (FIXED_ENERGY_TO_FLOAT) divides by the
same base exponent FIXED_EXPONENT as the spatial force channel
(FIXED_TO_FLOAT) — equal long long cast values decode equally; the log
flat bottom bond kernel's energy cells are 128-bit (twice the 64-bit
force-channel width); but the periodic torsion kernel accumulates energy
in the 64-bit force-channel type, every touched cell of its u buffer
staying below 2^64. -/
theorem energy_width_and_exponent :
    (∀ (v : ℤ) (w : ℕ), i128_to_ll v = u64_to_ll w →
      FIXED_ENERGY_TO_FLOAT v = FIXED_TO_FLOAT w)
    ∧ (∀ x : ℚ, -(2 ^ 127) ≤ FLOAT_TO_FIXED_ENERGY x ∧ FLOAT_TO_FIXED_ENERGY x < 2 ^ 127)
    ∧ (∀ (ops : MathOps) (D T : ℕ) (coords params : ℕ → ℚ) (tidxs : ℕ → ℕ)
        (bu : ℕ → ℕ) (j : ℕ),
        (torsion_u_adds ops D T coords params tidxs).any (fun p => p.1 == j) = true →
        applyAdds (torsion_u_adds ops D T coords params tidxs) bu j < 2 ^ 64) := by
  refine ⟨?_, ?_, ?_⟩
  · intro v w h
    unfold FIXED_ENERGY_TO_FLOAT FIXED_TO_FLOAT
    rw [h]
  · intro x
    unfold FLOAT_TO_FIXED_ENERGY wrap128
    have h1 : 0 ≤ (round (x * (FIXED_EXPONENT : ℚ)) + 2 ^ 127) % 2 ^ 128 :=
      Int.emod_nonneg _ (by norm_num)
    have h2 : (round (x * (FIXED_EXPONENT : ℚ)) + 2 ^ 127) % 2 ^ 128 < 2 ^ 128 :=
      Int.emod_lt_of_pos _ (by norm_num)
    have h3 : (2 : ℤ) ^ 128 = 2 * 2 ^ 127 := by norm_num
    constructor <;> linarith
  · intro ops D T coords params tidxs bu j h
    rw [applyAdds_cell, if_pos h]
    exact Nat.mod_lt _ (by norm_num)

/-- Witness for the amended C4 theorem: equal casts at 5 decode equally,
the 128-bit bound holds for an encoded energy, and the concrete torsion
launch's touched u slot 0 stays below 2^64. -/
theorem energy_width_and_exponent_witness :
    (i128_to_ll 5 = u64_to_ll 5 ∧ FIXED_ENERGY_TO_FLOAT 5 = FIXED_TO_FLOAT 5)
    ∧ (-(2 ^ 127) ≤ FLOAT_TO_FIXED_ENERGY 1 ∧ FLOAT_TO_FIXED_ENERGY 1 < 2 ^ 127)
    ∧ ((torsion_u_adds opsZero 3 1 (fun _ => 0) paramsKt (fun _ => 0)).any
          (fun p => p.1 == 0) = true
        ∧ applyAdds (torsion_u_adds opsZero 3 1 (fun _ => 0) paramsKt (fun _ => 0))
            (fun _ => 0) 0 < 2 ^ 64) := by
  have h5 : i128_to_ll 5 = u64_to_ll 5 := by decide
  have hany : (torsion_u_adds opsZero 3 1 (fun _ => 0) paramsKt (fun _ => 0)).any
      (fun p => p.1 == 0) = true := by
    unfold torsion_u_adds torsionThreadAdds
    simp [List.range_succ, torsionGeom]
  exact ⟨⟨h5, energy_width_and_exponent.1 5 5 h5⟩,
    energy_width_and_exponent.2.1 1,
    ⟨hany, energy_width_and_exponent.2.2 opsZero 3 1 (fun _ => 0) paramsKt (fun _ => 0)
      (fun _ => 0) 0 hany⟩⟩

/-- C5: permuting the dispatch order of the bound potentials in one
PotentialRunner round leaves every accumulated fixed-point buffer (force,
parameter-gradient and energy) bitwise identical, because every
contribution lands by modular integer atomic addition. -/
theorem execute_potentials_order_independent (bps bps2 : List BoundPotentialM)
    (h : bps.Perm bps2) (coords box : ℕ → ℚ) (du_dx du_dp u : Option (ℕ → ℕ)) :
    execute_potentials bps coords box du_dx du_dp u =
      execute_potentials bps2 coords box du_dx du_dp u := by
  have hf : ∀ f : BoundPotentialM → List (ℕ × ℕ),
      applyAdds (bps.flatMap f) = applyAdds (bps2.flatMap f) := by
    intro f
    funext b
    exact applyAdds_perm _ _ (h.flatMap_right f) b
  have c1 : ∀ (l : List BoundPotentialM),
      (execute_potentials l coords box du_dx du_dp u).1 =
        (du_dx.map (fun _ => fun _ => (0 : ℕ))).map
          (applyAdds (l.flatMap (fun bp => bp.dxAdds coords box))) := by
    intro l
    have h1 := foldl_triple_fst (fun bp => applyAdds (bp.dxAdds coords box))
      (fun bp => applyAdds (bp.dpAdds coords box))
      (fun bp => applyAdds (bp.uAdds coords box)) l
      (du_dx.map (fun _ => fun _ => 0), du_dp.map (fun _ => fun _ => 0),
        u.map (fun _ => fun _ => 0))
    refine h1.trans ?_
    congr 1
    funext b
    exact foldl_applyAdds_flatMap _ l b
  have c2 : ∀ (l : List BoundPotentialM),
      (execute_potentials l coords box du_dx du_dp u).2.1 =
        (du_dp.map (fun _ => fun _ => (0 : ℕ))).map
          (applyAdds (l.flatMap (fun bp => bp.dpAdds coords box))) := by
    intro l
    have h1 := foldl_triple_snd (fun bp => applyAdds (bp.dxAdds coords box))
      (fun bp => applyAdds (bp.dpAdds coords box))
      (fun bp => applyAdds (bp.uAdds coords box)) l
      (du_dx.map (fun _ => fun _ => 0), du_dp.map (fun _ => fun _ => 0),
        u.map (fun _ => fun _ => 0))
    refine h1.trans ?_
    congr 1
    funext b
    exact foldl_applyAdds_flatMap _ l b
  have c3 : ∀ (l : List BoundPotentialM),
      (execute_potentials l coords box du_dx du_dp u).2.2 =
        (u.map (fun _ => fun _ => (0 : ℕ))).map
          (applyAdds (l.flatMap (fun bp => bp.uAdds coords box))) := by
    intro l
    have h1 := foldl_triple_thd (fun bp => applyAdds (bp.dxAdds coords box))
      (fun bp => applyAdds (bp.dpAdds coords box))
      (fun bp => applyAdds (bp.uAdds coords box)) l
      (du_dx.map (fun _ => fun _ => 0), du_dp.map (fun _ => fun _ => 0),
        u.map (fun _ => fun _ => 0))
    refine h1.trans ?_
    congr 1
    funext b
    exact foldl_applyAdds_flatMap _ l b
  refine Prod.ext ?_ (Prod.ext ?_ ?_)
  · rw [c1 bps, c1 bps2, hf (fun bp => bp.dxAdds coords box)]
  · rw [c2 bps, c2 bps2, hf (fun bp => bp.dpAdds coords box)]
  · rw [c3 bps, c3 bps2, hf (fun bp => bp.uAdds coords box)]

/-- Example bound potential contributing to force cell 0 and energy
cell 0. -/
def bpExampleA : BoundPotentialM :=
  { dxAdds := fun _ _ => [(0, 1)], dpAdds := fun _ _ => [], uAdds := fun _ _ => [(0, 2)] }

/-- Example bound potential contributing to force cell 0 and gradient
cell 1. -/
def bpExampleB : BoundPotentialM :=
  { dxAdds := fun _ _ => [(0, 3)], dpAdds := fun _ _ => [(1, 4)], uAdds := fun _ _ => [] }

/-- Witness for C5: swapping two concrete bound potentials leaves the
round's outputs identical. -/
theorem execute_potentials_order_independent_witness :
    ([bpExampleB, bpExampleA].Perm [bpExampleA, bpExampleB])
    ∧ execute_potentials [bpExampleB, bpExampleA] (fun _ => 0) (fun _ => 0)
        (some (fun _ => 0)) (some (fun _ => 0)) (some (fun _ => 0)) =
      execute_potentials [bpExampleA, bpExampleB] (fun _ => 0) (fun _ => 0)
        (some (fun _ => 0)) (some (fun _ => 0)) (some (fun _ => 0)) :=
  ⟨List.Perm.swap bpExampleA bpExampleB [],
    execute_potentials_order_independent _ _ (List.Perm.swap bpExampleA bpExampleB [])
      (fun _ => 0) (fun _ => 0) (some (fun _ => 0)) (some (fun _ => 0)) (some (fun _ => 0))⟩

/-- C6: a null output pointer makes each kernel skip that quantity's
accumulation entirely (the corresponding output stays absent), and every
non-null buffer receives exactly the contributions it would receive under
any other combination of the remaining pointers, in particular with all
three non-null. -/
theorem null_output_pointers_skip_accumulation (ops : MathOps)
    (cfbe : ℚ → ℚ → ℚ → ℚ → ℚ) (D T B : ℕ) (coords box params : ℕ → ℚ)
    (tidxs bidxs : ℕ → ℕ) (beta : ℚ) :
    (∀ (bx : ℕ → ℕ) (obp obu : Option (ℕ → ℕ)),
      (k_periodic_torsion ops D T coords params tidxs (some bx) obp obu).1 =
        (k_periodic_torsion ops D T coords params tidxs (some bx) none none).1)
    ∧ (∀ obp obu, (k_periodic_torsion ops D T coords params tidxs none obp obu).1 = none)
    ∧ (∀ (bp : ℕ → ℕ) (obx obu : Option (ℕ → ℕ)),
      (k_periodic_torsion ops D T coords params tidxs obx (some bp) obu).2.1 =
        (k_periodic_torsion ops D T coords params tidxs none (some bp) none).2.1)
    ∧ (∀ obx obu, (k_periodic_torsion ops D T coords params tidxs obx none obu).2.1 = none)
    ∧ (∀ (bu : ℕ → ℕ) (obx obp : Option (ℕ → ℕ)),
      (k_periodic_torsion ops D T coords params tidxs obx obp (some bu)).2.2 =
        (k_periodic_torsion ops D T coords params tidxs none none (some bu)).2.2)
    ∧ (∀ obx obp, (k_periodic_torsion ops D T coords params tidxs obx obp none).2.2 = none)
    ∧ (∀ (bx : ℕ → ℕ) (obp : Option (ℕ → ℕ)) (obu : Option (ℕ → ℤ)),
      (k_log_flat_bottom_bond ops cfbe B coords box params bidxs beta (some bx) obp obu).1 =
        (k_log_flat_bottom_bond ops cfbe B coords box params bidxs beta
          (some bx) none none).1)
    ∧ (∀ (obp : Option (ℕ → ℕ)) (obu : Option (ℕ → ℤ)),
      (k_log_flat_bottom_bond ops cfbe B coords box params bidxs beta none obp obu).1 = none)
    ∧ (∀ (bp : ℕ → ℕ) (obx : Option (ℕ → ℕ)) (obu : Option (ℕ → ℤ)),
      (k_log_flat_bottom_bond ops cfbe B coords box params bidxs beta obx (some bp) obu).2.1 =
        (k_log_flat_bottom_bond ops cfbe B coords box params bidxs beta
          none (some bp) none).2.1)
    ∧ (∀ (obx : Option (ℕ → ℕ)) (obu : Option (ℕ → ℤ)),
      (k_log_flat_bottom_bond ops cfbe B coords box params bidxs beta obx none obu).2.1 = none)
    ∧ (∀ (bu : ℕ → ℤ) (obx obp : Option (ℕ → ℕ)),
      (k_log_flat_bottom_bond ops cfbe B coords box params bidxs beta obx obp (some bu)).2.2 =
        (k_log_flat_bottom_bond ops cfbe B coords box params bidxs beta
          none none (some bu)).2.2)
    ∧ (∀ (obx obp : Option (ℕ → ℕ)),
      (k_log_flat_bottom_bond ops cfbe B coords box params bidxs beta obx obp none).2.2 =
        none) := by
  refine ⟨?_, ?_, ?_, ?_, ?_, ?_, ?_, ?_, ?_, ?_, ?_, ?_⟩ <;> intros <;>
    simp [k_periodic_torsion_fst, k_periodic_torsion_snd, k_periodic_torsion_thd,
      k_log_flat_bottom_bond_fst, k_log_flat_bottom_bond_snd, k_log_flat_bottom_bond_thd]

/-- C9: DeviceBuffer construction with length < 1 raises the runtime
error (no allocation is made — the error result carries no buffer), and
for length >= 1 it allocates exactly length elements with size
length * sizeof(element). -/
theorem DeviceBuffer_construct_contract (sizeofT length : ℕ) :
    (length < 1 →
      DeviceBuffer.construct sizeofT length =
        Except.error "device buffer length must at least be 1")
    ∧ (1 ≤ length →
      DeviceBuffer.construct sizeofT length =
        Except.ok { size := length * sizeofT, dataElems := length }) := by
  constructor
  · intro h
    unfold DeviceBuffer.construct allocate
    rw [if_pos h]
    rfl
  · intro h
    unfold DeviceBuffer.construct allocate
    rw [if_neg (by omega)]
    rfl

/-- Witness for C9 at length 0 (error) and length 4 with 8-byte elements
(allocation of 4 elements, 32 bytes). -/
theorem DeviceBuffer_construct_contract_witness :
    DeviceBuffer.construct 8 0 =
        Except.error "device buffer length must at least be 1"
      ∧ DeviceBuffer.construct 8 4 = Except.ok { size := 32, dataElems := 4 } :=
  ⟨(DeviceBuffer_construct_contract 8 0).1 (by decide),
    (DeviceBuffer_construct_contract 8 4).2 (by decide)⟩

/-- C10: when the per-atom energy buffer u is non-null, a torsion term's
entire encoded energy contribution kt * (1 + cos(period*angle - phase))
is added only into the slot of the term's first atom i; every other slot,
in particular those of atoms j, k and l when they differ from i, is left
unchanged by that term. -/
theorem torsion_energy_only_first_atom (ops : MathOps) (D : ℕ)
    (coords params : ℕ → ℚ) (tidxs : ℕ → ℕ) (t_idx : ℕ) (b : ℕ → ℕ) :
    (∀ s : ℕ, s ≠ tidxs (t_idx * 4 + 0) →
      applyAdds ((torsionThreadAdds ops D coords params tidxs t_idx).2.2) b s = b s)
    ∧ applyAdds ((torsionThreadAdds ops D coords params tidxs t_idx).2.2) b
        (tidxs (t_idx * 4 + 0)) =
      (b (tidxs (t_idx * 4 + 0)) +
        FLOAT_TO_FIXED_BONDED (params (t_idx * 3 + 0) *
          (1 + ops.cos (params (t_idx * 3 + 2) *
            (torsionGeom ops D coords tidxs t_idx).angle - params (t_idx * 3 + 1))))) %
        2 ^ 64 := by
  have huadds : (torsionThreadAdds ops D coords params tidxs t_idx).2.2 =
      [(tidxs (t_idx * 4 + 0),
        FLOAT_TO_FIXED_BONDED (params (t_idx * 3 + 0) *
          (1 + ops.cos (params (t_idx * 3 + 2) *
            (torsionGeom ops D coords tidxs t_idx).angle - params (t_idx * 3 + 1)))))] :=
    rfl
  constructor
  · intro s hs
    rw [huadds]
    have hs2 : s ≠ tidxs (t_idx * 4) := by simpa using hs
    simp [applyAdds, atomicAddU64, hs2]
  · rw [huadds]
    simp [applyAdds, atomicAddU64]

/-- Witness for C10: at a concrete torsion configuration, slot 5 differs
from the term's first atom 0 and keeps its prior contents. -/
theorem torsion_energy_only_first_atom_witness :
    applyAdds ((torsionThreadAdds opsZero 3 (fun _ => 0) (fun _ => 0) (fun _ => 0) 0).2.2)
        (fun _ => 0) 5 = (fun _ => (0 : ℕ)) 5 :=
  (torsion_energy_only_first_atom opsZero 3 (fun _ => 0) (fun _ => 0) (fun _ => 0) 0
    (fun _ => 0)).1 5 (by decide)

/-- C7: at construction the Langevin integrator derives
ca = exp(-friction*dt), cb_i = dt/m_i, and — given that the machine
exponential respects exp(-2*friction*dt) = exp(-friction*dt)^2, the exact
property of the real exponential — cc_i = sqrt(1 - ca^2) * sqrt(kT/m_i)
with kT = BOLTZ*temperature; and step_fwd never recomputes ca, cbs or
ccs. -/
theorem langevin_coefficients_once (ops : MathOps) (BOLTZ : ℚ) (N : ℕ)
    (masses : ℕ → ℚ) (temperature dt friction : ℚ) (seed : ℕ)
    (hexp : ops.exp (-2 * friction * dt) = ops.exp (-friction * dt) ^ 2) :
    (LangevinIntegrator.construct ops BOLTZ N masses temperature dt friction seed).ca =
      ops.exp (-friction * dt)
    ∧ (∀ i, (LangevinIntegrator.construct ops BOLTZ N masses temperature dt friction
        seed).cbs i = dt / masses i)
    ∧ (∀ i, (LangevinIntegrator.construct ops BOLTZ N masses temperature dt friction
        seed).ccs i =
      ops.sqrt (1 - (LangevinIntegrator.construct ops BOLTZ N masses temperature dt friction
        seed).ca ^ 2) * ops.sqrt (BOLTZ * temperature / masses i))
    ∧ (∀ (rng : ℕ → ℕ → ℚ) (bps : List BoundPotentialM) (x v box : ℕ → ℚ)
        (idxs : Option (ℕ → Bool)),
      ((LangevinIntegrator.construct ops BOLTZ N masses temperature dt friction
          seed).step_fwd rng bps x v box idxs).2.2.ca =
        (LangevinIntegrator.construct ops BOLTZ N masses temperature dt friction seed).ca
      ∧ ((LangevinIntegrator.construct ops BOLTZ N masses temperature dt friction
          seed).step_fwd rng bps x v box idxs).2.2.cbs =
        (LangevinIntegrator.construct ops BOLTZ N masses temperature dt friction seed).cbs
      ∧ ((LangevinIntegrator.construct ops BOLTZ N masses temperature dt friction
          seed).step_fwd rng bps x v box idxs).2.2.ccs =
        (LangevinIntegrator.construct ops BOLTZ N masses temperature dt friction
          seed).ccs) := by
  refine ⟨rfl, fun i => rfl, fun i => ?_, fun rng bps x v box idxs => ⟨rfl, rfl, rfl⟩⟩
  show ops.sqrt (1 - ops.exp (-2 * friction * dt)) *
      ops.sqrt (BOLTZ * temperature / masses i) = _
  rw [hexp]
  rfl

/-- Witness for C7 with a concrete MathOps whose exp is constantly 1. -/
theorem langevin_coefficients_once_witness :
    ((MathOps.mk (fun q => q) (fun _ => 1) (fun _ => 0) (fun _ => 0) (fun _ => 0)
        (fun _ => 0) (fun _ => 0) (fun _ _ => 0)).exp (-2 * 1 * 1) =
      (MathOps.mk (fun q => q) (fun _ => 1) (fun _ => 0) (fun _ => 0) (fun _ => 0)
        (fun _ => 0) (fun _ => 0) (fun _ _ => 0)).exp (-1 * 1) ^ 2)
    ∧ (∀ i, (LangevinIntegrator.construct
        (MathOps.mk (fun q => q) (fun _ => 1) (fun _ => 0) (fun _ => 0) (fun _ => 0)
          (fun _ => 0) (fun _ => 0) (fun _ _ => 0)) 1 2 (fun _ => 1) 1 1 1 42).cbs i =
      1 / (fun _ => (1 : ℚ)) i) := by
  have hexp : (MathOps.mk (fun q => q) (fun _ => 1) (fun _ => 0) (fun _ => 0) (fun _ => 0)
      (fun _ => 0) (fun _ => 0) (fun _ _ => 0)).exp (-2 * 1 * 1) =
      (MathOps.mk (fun q => q) (fun _ => 1) (fun _ => 0) (fun _ => 0) (fun _ => 0)
        (fun _ => 0) (fun _ => 0) (fun _ _ => 0)).exp (-1 * 1) ^ 2 := by norm_num
  exact ⟨hexp,
    (langevin_coefficients_once
      (MathOps.mk (fun q => q) (fun _ => 1) (fun _ => 0) (fun _ => 0) (fun _ => 0)
        (fun _ => 0) (fun _ => 0) (fun _ _ => 0)) 1 2 (fun _ => 1) 1 1 1 42 hexp).2.1⟩

/-- C8: two Langevin integrators constructed with identical atom count,
masses, temperature, friction, timestep and seed, stepping the same
bound-potential list from identical initial positions, velocities and
box (and the same mask and random stream), produce identical position and
velocity trajectories over any number of steps. -/
theorem langevin_deterministic_stepping (ops : MathOps) (BOLTZ : ℚ)
    (rng : ℕ → ℕ → ℚ) (bps : List BoundPotentialM) (box : ℕ → ℚ)
    (idxs : Option (ℕ → Bool))
    (N1 N2 : ℕ) (masses1 masses2 : ℕ → ℚ) (t1 t2 dt1 dt2 f1 f2 : ℚ)
    (seed1 seed2 : ℕ) (x1 x2 v1 v2 : ℕ → ℚ)
    (hN : N1 = N2) (hm : masses1 = masses2) (ht : t1 = t2) (hdt : dt1 = dt2)
    (hf : f1 = f2) (hs : seed1 = seed2) (hx : x1 = x2) (hv : v1 = v2) :
    ∀ n, trajectory rng bps box idxs
        (LangevinIntegrator.construct ops BOLTZ N1 masses1 t1 dt1 f1 seed1) x1 v1 n =
      trajectory rng bps box idxs
        (LangevinIntegrator.construct ops BOLTZ N2 masses2 t2 dt2 f2 seed2) x2 v2 n := by
  subst hN hm ht hdt hf hs hx hv
  intro n
  rfl

/-- Witness for C8 at three steps of a concrete two-atom system. -/
theorem langevin_deterministic_stepping_witness :
    trajectory (fun _ _ => 0) [bpExampleA] (fun _ => 0) none
        (LangevinIntegrator.construct opsZero 1 2 (fun _ => 1) 300 1 1 42)
        (fun _ => 0) (fun _ => 0) 3 =
      trajectory (fun _ _ => 0) [bpExampleA] (fun _ => 0) none
        (LangevinIntegrator.construct opsZero 1 2 (fun _ => 1) 300 1 1 42)
        (fun _ => 0) (fun _ => 0) 3 :=
  langevin_deterministic_stepping opsZero 1 (fun _ _ => 0) [bpExampleA] (fun _ => 0) none
    2 2 (fun _ => 1) (fun _ => 1) 300 300 1 1 1 1 42 42
    (fun _ => 0) (fun _ => 0) (fun _ => 0) (fun _ => 0)
    rfl rfl rfl rfl rfl rfl rfl rfl 3

end timemachine
